import Mathlib

/-!
Shallow embedding of the numerical-methods repository (avaliacao1.py,
avaliacao2.py).

Conventions used throughout:

* Python floats are modelled as exact rationals.
* A Python function string such as "x**2 - 4" is modelled as an arithmetic
  expression tree `Expr` over one variable; `Expr.eval v e` is the value of
  the expression with the variable set to `v`, matching what Python `eval`
  returns after the textual substitution performed by `eval_func`.
* A Python function that can raise an exception on some inputs is modelled
  with `Option` (or `Except`): `none` at exactly the inputs where the Python
  call raises, `some r` when it returns `r`.
* `math.ceil(math.log2 r)` is modelled by the executable `ceilLog2`, proved
  equal to Mathlib`s `Int.clog 2` below.
-/

/-- Arithmetic expressions in one variable: the restricted numeric grammar of
the function strings the program evaluates (constants, the variable `x`,
addition, subtraction, multiplication, division, negation and natural-number
powers, as in `x**2 - 4`). -/
inductive Expr where
  | const : ℚ → Expr
  | var : Expr
  | add : Expr → Expr → Expr
  | sub : Expr → Expr → Expr
  | mul : Expr → Expr → Expr
  | div : Expr → Expr → Expr
  | neg : Expr → Expr
  | pow : Expr → ℕ → Expr
deriving DecidableEq, Repr

/-- Value of an expression with the variable set to `v` (what Python `eval`
returns on the substituted string; division by zero is total here, a detail
none of the verified claims touch). -/
def Expr.eval (v : ℚ) : Expr → ℚ
  | .const q => q
  | .var => v
  | .add a b => a.eval v + b.eval v
  | .sub a b => a.eval v - b.eval v
  | .mul a b => a.eval v * b.eval v
  | .div a b => a.eval v / b.eval v
  | .neg a => -a.eval v
  | .pow a k => a.eval v ^ k

/-- Value component of `eval_func(func_str, x)` from avaliacao1.py.  The
source computes `eval(func_str.replace("x", str(1)))` when `x is not None`
and `-1` otherwise: the variable is textually replaced by the literal `1`
(not by `x`), so the evaluation point is ignored.  The second component of
the Python return value (the sympy root list) is computed by the external
sympy collaborator and is not used by any root-finding loop, so it is not
modelled. -/
def eval_func (e : Expr) (x : Option ℚ) : ℚ :=
  match x with
  | some _ => Expr.eval 1 e
  | none => -1

/-- Value component of `eval_func_derivative(func_str, x, h)` from
avaliacao1.py: the central finite difference
`(eval_func(s, x+h) - eval_func(s, x-h)) / (2h)`.  The sympy root list of
the derivative is external and not modelled. -/
def eval_func_derivative (e : Expr) (x : ℚ) (h : ℚ) : ℚ :=
  (eval_func e (some (x + h)) - eval_func e (some (x - h))) / (2 * h)

/-- The default step used by `newton_raphson_method` when it calls
`eval_func_derivative` (Python default `h = 1e-5`). -/
def derivativeStep : ℚ := 1 / 100000

/-- `relative_error(approx_value, true_value)` from avaliacao1.py:
`abs((approx_value - true_value) / true_value)`.  Python float division
raises `ZeroDivisionError` when `true_value == 0`, modelled as `none`. -/
def relative_error (approx_value true_value : ℚ) : Option ℚ :=
  if true_value = 0 then none
  else some |(approx_value - true_value) / true_value|

/-- The stop reasons returned by the three root finders, one constructor per
distinct Python string: `"Exact root found"`, `"Tolerance reached"`,
`"Maximum iterations reached"`, `"Converged to the fixed point"`,
`"Approximate root found"`, `"Converged to the root"`,
`"Derivative is zero, method fails"`. -/
inductive StopReason where
  | exactRootFound
  | toleranceReached
  | maxIterationsReached
  | convergedFixedPoint
  | approximateRootFound
  | convergedToRoot
  | derivativeZero
deriving DecidableEq, Repr

/-- Fuel-based ceiling logarithm in base 2 on naturals: `clog2Aux fuel n` is
`⌈log₂ n⌉` whenever `n ≤ fuel` (proved below against `Nat.clog`). -/
def clog2Aux : ℕ → ℕ → ℕ
  | 0, _ => 0
  | fuel + 1, n => if n ≤ 1 then 0 else clog2Aux fuel ((n + 1) / 2) + 1

/-- Fuel-based floor logarithm in base 2 on naturals: `log2Aux fuel n` is
`⌊log₂ n⌋` whenever `n ≤ fuel` (proved below against `Nat.log`). -/
def log2Aux : ℕ → ℕ → ℕ
  | 0, _ => 0
  | fuel + 1, n => if n ≤ 1 then 0 else log2Aux fuel (n / 2) + 1

/-- Executable model of `math.ceil(math.log2 r)`: the least `k : ℤ` with
`r ≤ 2 ^ k` for `r > 0`.  Mirrors the shape of Mathlib`s `Int.clog` and is
proved equal to it in `ceilLog2_eq_int_clog`. -/
def ceilLog2 (r : ℚ) : ℤ :=
  if 1 ≤ r then (clog2Aux ⌈r⌉₊ ⌈r⌉₊ : ℤ) else -(log2Aux ⌊r⁻¹⌋₊ ⌊r⁻¹⌋₊ : ℤ)

/-- Loop body of `bisection_method` (avaliacao1.py lines 110-124), by
recursion on the remaining loop passes.  `i` is the number of passes already
performed, `lastMid` the midpoint of the most recent pass (`none` before the
first pass: returning from the loop with no pass performed reads the
unassigned Python locals `current_bisection` and `i`, which raises, modelled
as `none`).  `stopR` is the stop reason pre-computed before the loop. -/
def bisectionGo (e : Expr) (stopR : StopReason) :
    ℕ → ℚ → ℚ → ℕ → Option ℚ → Option (ℚ × ℕ × StopReason)
  | 0, _, _, i, lastMid => lastMid.map (fun m => (m, i, stopR))
  | n + 1, lo, hi, i, _ =>
    let m := (lo + hi) / 2
    let fm := eval_func e (some m)
    let flo := eval_func e (some lo)
    if fm = 0 then some (m, i + 1, .exactRootFound)
    else if flo = 0 then some (lo, i + 1, .exactRootFound)
    else if flo * fm < 0 then bisectionGo e stopR n lo m (i + 1) (some m)
    else bisectionGo e stopR n m hi (i + 1) (some m)

/-- `bisection_method(f_func_str, lower_bound, upper_bound, tolerance,
max_iterations)` from avaliacao1.py.  Before the loop it computes
`ceil(log2(|upper - lower| / tolerance))`, shrinks `max_iterations` to it
when smaller (pre-recording the stop reason `"Tolerance reached"`, else
`"Maximum iterations reached"`), then runs the loop for the effective bound.
`none` models the Python call raising (an unassigned-local error when the
effective bound is below 1, which subsumes the `log2` domain error at
`lower = upper`). -/
def bisection_method (e : Expr) (lower_bound upper_bound tolerance : ℚ)
    (max_iterations : ℤ) : Option (ℚ × ℕ × StopReason) :=
  let bisection_iterations := ceilLog2 (|upper_bound - lower_bound| / tolerance)
  let eff := if bisection_iterations < max_iterations then bisection_iterations
    else max_iterations
  let stopR := if bisection_iterations < max_iterations then
    StopReason.toleranceReached else StopReason.maxIterationsReached
  bisectionGo e stopR eff.toNat lower_bound upper_bound 0 none

/-- Loop body of `fixed_point_method` (avaliacao1.py lines 152-163), by
recursion on the remaining loop passes.  `lastNext` is the `next_guess` of
the most recent pass (`none` before the first pass: a loop that never runs
reads the unassigned local `next_guess`, modelled as `none`). -/
def fixedPointGo (f g : Expr) (tolerance : ℚ) :
    ℕ → ℚ → ℕ → Option ℚ → Option (ℚ × ℕ × StopReason)
  | 0, _, i, lastNext => lastNext.map (fun nx => (nx, i, .maxIterationsReached))
  | n + 1, current, i, _ =>
    let next := eval_func g (some current)
    let fv := eval_func f (some next)
    if |next - current| < tolerance then some (next, i + 1, .convergedFixedPoint)
    else if |fv| < tolerance then some (next, i + 1, .approximateRootFound)
    else fixedPointGo f g tolerance n next (i + 1) (some next)

/-- `fixed_point_method(f_func_str, g_func_str, tolerance, initial_guess,
max_iterations)` from avaliacao1.py. -/
def fixed_point_method (f g : Expr) (tolerance initial_guess : ℚ)
    (max_iterations : ℤ) : Option (ℚ × ℕ × StopReason) :=
  fixedPointGo f g tolerance max_iterations.toNat initial_guess 0 none

/-- Loop body of `newton_raphson_method` (avaliacao1.py lines 186-198), by
recursion on the remaining loop passes. -/
def newtonGo (f : Expr) (tolerance : ℚ) :
    ℕ → ℚ → ℕ → Option ℚ → Option (ℚ × ℕ × StopReason)
  | 0, _, i, lastNext => lastNext.map (fun nx => (nx, i, .maxIterationsReached))
  | n + 1, current, i, _ =>
    let fv := eval_func f (some current)
    let dv := eval_func_derivative f current derivativeStep
    if dv = 0 then some (current, i + 1, .derivativeZero)
    else
      let next := current - fv / dv
      if |next - current| < tolerance then some (next, i + 1, .convergedToRoot)
      else newtonGo f tolerance n next (i + 1) (some next)

/-- `newton_raphson_method(f_func_str, tolerance, initial_guess,
max_iterations)` from avaliacao1.py. -/
def newton_raphson_method (f : Expr) (tolerance initial_guess : ℚ)
    (max_iterations : ℤ) : Option (ℚ × ℕ × StopReason) :=
  newtonGo f tolerance max_iterations.toNat initial_guess 0 none

/-- `trapezoidal_rule(f, a, b, n)` from avaliacao2.py, instrumented with a
count of the calls to `f`: the first component is the value the Python code
returns, the second the number of times `f` was evaluated.  The code sets
`integral = (f(a) + f(b)) / 2`, adds `f(a + i*h)` for `i in range(1, n)`,
then multiplies by `h = (b - a) / n`.  In avaliacao2.py the function `f` is
a genuine callable (built by `eval(f"lambda x: ...")`), so it is modelled
directly as `ℚ → ℚ`. -/
def trapezoidal_rule_run (f : ℚ → ℚ) (a b : ℚ) (n : ℕ) : ℚ × ℕ :=
  let h := (b - a) / (n : ℚ)
  let st0 : ℚ × ℕ := ((f a + f b) / 2, 2)
  let st := ((List.range n).drop 1).foldl
    (fun (st : ℚ × ℕ) (i : ℕ) => (st.1 + f (a + (i : ℚ) * h), st.2 + 1)) st0
  (st.1 * h, st.2)

/-- The float returned by `trapezoidal_rule(f, a, b, n)`. -/
def trapezoidal_rule (f : ℚ → ℚ) (a b : ℚ) (n : ℕ) : ℚ :=
  (trapezoidal_rule_run f a b n).1

/-- The invalid-argument failure of avaliacao2.py: `simpsons_one_third_rule`
raises `ValueError("Number of intervals (n) must be even for ... rule.")`
when `n` is odd. -/
inductive QuadratureError where
  | nMustBeEven
deriving DecidableEq, Repr

/-- The list of loop indices of Python `range(start, stop, step)` for a
positive `step`. -/
def intRange (start stop step : ℤ) : List ℤ :=
  (List.range ((stop - start + step - 1) / step).toNat).map
    (fun j => start + step * (j : ℤ))

/-- `simpsons_one_third_rule(f, a, b, n)` from avaliacao2.py: raises
`ValueError` (modelled as `Except.error .nMustBeEven`) when `n % 2 != 0`,
checked before anything else; otherwise sums `f(a) + f(b)`, then
`4 * f(a + i*h)` for `i in range(1, n, 2)`, then `2 * f(a + i*h)` for
`i in range(2, n - 1, 2)`, and multiplies by `h / 3` with
`h = (b - a) / n`. -/
def simpsons_one_third_rule (f : ℚ → ℚ) (a b : ℚ) (n : ℤ) :
    Except QuadratureError ℚ :=
  if n % 2 ≠ 0 then .error .nMustBeEven
  else
    let h := (b - a) / (n : ℚ)
    let integral := f a + f b
    let integral := (intRange 1 n 2).foldl
      (fun (acc : ℚ) (i : ℤ) => acc + 4 * f (a + (i : ℚ) * h)) integral
    let integral := (intRange 2 (n - 1) 2).foldl
      (fun (acc : ℚ) (i : ℤ) => acc + 2 * f (a + (i : ℚ) * h)) integral
    .ok (integral * (h / 3))

/-- The expression `x**2 - 4`, used by the concrete spec scenarios. -/
def xSqMinusFour : Expr := Expr.sub (Expr.pow Expr.var 2) (Expr.const 4)

/-- The expression `x/2 + 1`, the default fixed-point iteration map of the
script. -/
def gHalfPlusOne : Expr := Expr.add (Expr.div Expr.var (Expr.const 2)) (Expr.const 1)

/-- Iterates of the map `current ↦ eval_func(g_func_str, current)[0]`
performed by `fixed_point_method`, starting from the initial guess. -/
def gIter (g : Expr) (x0 : ℚ) : ℕ → ℚ
  | 0 => x0
  | k + 1 => eval_func g (some (gIter g x0 k))

/-- Neither stopping test of `fixed_point_method` fires on loop pass `k + 1`:
the step from iterate `k` to iterate `k + 1` moves by at least the
tolerance, and `f` at iterate `k + 1` is at least the tolerance in absolute
value. -/
def checksFailAt (f g : Expr) (tolerance x0 : ℚ) (k : ℕ) : Prop :=
  ¬ |gIter g x0 (k + 1) - gIter g x0 k| < tolerance ∧
  ¬ |eval_func f (some (gIter g x0 (k + 1)))| < tolerance

section helperLemmas

lemma clog2Aux_eq (fuel n : ℕ) (h : n ≤ fuel) : clog2Aux fuel n = Nat.clog 2 n := by
  induction fuel generalizing n with
  | zero =>
    interval_cases n
    simp [clog2Aux]
  | succ fuel ih =>
    by_cases h1 : n ≤ 1
    · rw [clog2Aux, if_pos h1, Nat.clog_of_right_le_one h1]
    · rw [clog2Aux, if_neg h1, Nat.clog_of_two_le one_lt_two (by omega),
        ih ((n + 1) / 2) (by omega)]
      congr 2

lemma log2Aux_eq (fuel n : ℕ) (h : n ≤ fuel) : log2Aux fuel n = Nat.log 2 n := by
  induction fuel generalizing n with
  | zero =>
    interval_cases n
    simp [log2Aux]
  | succ fuel ih =>
    by_cases h1 : n ≤ 1
    · rw [log2Aux, if_pos h1]
      rcases Nat.le_one_iff_eq_zero_or_eq_one.mp h1 with rfl | rfl <;> simp
    · rw [log2Aux, if_neg h1, Nat.log_of_one_lt_of_le one_lt_two (by omega),
        ih (n / 2) (by omega)]

/-- The executable ceiling log agrees with Mathlib`s `Int.clog 2`. -/
lemma ceilLog2_eq_int_clog (r : ℚ) : ceilLog2 r = Int.clog 2 r := by
  unfold ceilLog2
  by_cases h1 : 1 ≤ r
  · rw [if_pos h1, Int.clog_of_one_le_right _ h1, clog2Aux_eq _ _ le_rfl]
  · rw [if_neg h1, Int.clog_of_right_le_one _ (le_of_not_le h1),
      log2Aux_eq _ _ le_rfl]

lemma ceilLog2_300 : ceilLog2 300 = 9 := by
  rw [ceilLog2, if_pos (by norm_num)]
  norm_num
  decide

/-- One unfolding of the bisection loop: definitional restatement used to
rewrite a single pass at a time (both evaluations reduce to the value of the
expression at 1). -/
lemma bisectionGo_step (e : Expr) (r : StopReason) (n : ℕ) (lo hi : ℚ)
    (i : ℕ) (last : Option ℚ) :
    bisectionGo e r (n + 1) lo hi i last =
      (if Expr.eval 1 e = 0 then some ((lo + hi) / 2, i + 1, .exactRootFound)
      else if Expr.eval 1 e = 0 then some (lo, i + 1, .exactRootFound)
      else if Expr.eval 1 e * Expr.eval 1 e < 0 then
        bisectionGo e r n lo ((lo + hi) / 2) (i + 1) (some ((lo + hi) / 2))
      else bisectionGo e r n ((lo + hi) / 2) hi (i + 1)
        (some ((lo + hi) / 2))) := rfl

/-- When every evaluation of the function returns the same nonzero value
(which is what `eval_func` does), every pass of the bisection loop takes the
final branch `current_lower = current_bisection`, so after `n + 1` passes the
loop has not returned early and the last midpoint is
`hi - (hi - lo) / 2 ^ (n + 1)`. -/
lemma bisectionGo_const_sign (e : Expr) (r : StopReason)
    (hc : Expr.eval 1 e ≠ 0) :
    ∀ (n : ℕ) (lo hi : ℚ) (i : ℕ) (last : Option ℚ),
      bisectionGo e r (n + 1) lo hi i last =
        some (hi - (hi - lo) / 2 ^ (n + 1), i + (n + 1), r) := by
  intro n
  induction n with
  | zero =>
    intro lo hi i last
    rw [bisectionGo_step, if_neg hc, if_neg hc,
      if_neg (not_lt.2 (mul_self_nonneg _))]
    simp only [bisectionGo, Option.map_some', Option.some.injEq, Prod.mk.injEq,
      and_true, true_and]
    ring
  | succ n ih =>
    intro lo hi i last
    rw [bisectionGo_step, if_neg hc, if_neg hc,
      if_neg (not_lt.2 (mul_self_nonneg _)), ih]
    simp only [Option.some.injEq, Prod.mk.injEq, and_true, true_and]
    refine ⟨by field_simp; ring, by omega⟩

lemma bisectionGo_iters_le (e : Expr) (r : StopReason) :
    ∀ (n : ℕ) (lo hi : ℚ) (i : ℕ) (last : Option ℚ) (est : ℚ) (it : ℕ)
      (rr : StopReason),
      bisectionGo e r n lo hi i last = some (est, it, rr) → it ≤ i + n := by
  intro n
  induction n with
  | zero =>
    intro lo hi i last est it rr h
    cases last with
    | none => simp [bisectionGo] at h
    | some m =>
      simp only [bisectionGo, Option.map_some', Option.some.injEq,
        Prod.mk.injEq] at h
      obtain ⟨-, h2, -⟩ := h
      omega
  | succ n ih =>
    intro lo hi i last est it rr h
    rw [bisectionGo_step] at h
    by_cases h1 : Expr.eval 1 e = 0
    · rw [if_pos h1] at h
      simp only [Option.some.injEq, Prod.mk.injEq] at h
      obtain ⟨-, h2, -⟩ := h
      omega
    · rw [if_neg h1, if_neg h1] at h
      by_cases h2 : Expr.eval 1 e * Expr.eval 1 e < 0
      · rw [if_pos h2] at h
        have := ih lo _ (i + 1) _ est it rr h
        omega
      · rw [if_neg h2] at h
        have := ih _ hi (i + 1) _ est it rr h
        omega

/-- One unfolding of the fixed-point loop (`next` and `func_value` both
reduce to values of the expressions at 1, since `eval_func` ignores its
point argument). -/
lemma fixedPointGo_step (f g : Expr) (tol : ℚ) (n : ℕ) (cur : ℚ) (i : ℕ)
    (last : Option ℚ) :
    fixedPointGo f g tol (n + 1) cur i last =
      (if |Expr.eval 1 g - cur| < tol then
        some (Expr.eval 1 g, i + 1, .convergedFixedPoint)
      else if |Expr.eval 1 f| < tol then
        some (Expr.eval 1 g, i + 1, .approximateRootFound)
      else fixedPointGo f g tol n (Expr.eval 1 g) (i + 1)
        (some (Expr.eval 1 g))) := rfl

/-- One unfolding of the Newton-Raphson loop. -/
lemma newtonGo_step (f : Expr) (tol : ℚ) (n : ℕ) (cur : ℚ) (i : ℕ)
    (last : Option ℚ) :
    newtonGo f tol (n + 1) cur i last =
      (if eval_func_derivative f cur derivativeStep = 0 then
        some (cur, i + 1, .derivativeZero)
      else
        if |cur - eval_func f (some cur) / eval_func_derivative f cur derivativeStep
            - cur| < tol then
          some (cur - eval_func f (some cur) / eval_func_derivative f cur derivativeStep,
            i + 1, .convergedToRoot)
        else
          newtonGo f tol n
            (cur - eval_func f (some cur) / eval_func_derivative f cur derivativeStep)
            (i + 1)
            (some (cur - eval_func f (some cur) /
              eval_func_derivative f cur derivativeStep))) := rfl

lemma fixedPointGo_iters_le (f g : Expr) (tol : ℚ) :
    ∀ (n : ℕ) (cur : ℚ) (i : ℕ) (last : Option ℚ) (est : ℚ) (it : ℕ)
      (rr : StopReason),
      fixedPointGo f g tol n cur i last = some (est, it, rr) → it ≤ i + n := by
  intro n
  induction n with
  | zero =>
    intro cur i last est it rr h
    cases last with
    | none => simp [fixedPointGo] at h
    | some m =>
      simp only [fixedPointGo, Option.map_some', Option.some.injEq,
        Prod.mk.injEq] at h
      obtain ⟨-, h2, -⟩ := h
      omega
  | succ n ih =>
    intro cur i last est it rr h
    rw [fixedPointGo_step] at h
    by_cases h1 : |Expr.eval 1 g - cur| < tol
    · rw [if_pos h1] at h
      simp only [Option.some.injEq, Prod.mk.injEq] at h
      obtain ⟨-, h2, -⟩ := h
      omega
    · rw [if_neg h1] at h
      by_cases h2 : |Expr.eval 1 f| < tol
      · rw [if_pos h2] at h
        simp only [Option.some.injEq, Prod.mk.injEq] at h
        obtain ⟨-, h3, -⟩ := h
        omega
      · rw [if_neg h2] at h
        have := ih _ (i + 1) _ est it rr h
        omega

lemma newtonGo_iters_le (f : Expr) (tol : ℚ) :
    ∀ (n : ℕ) (cur : ℚ) (i : ℕ) (last : Option ℚ) (est : ℚ) (it : ℕ)
      (rr : StopReason),
      newtonGo f tol n cur i last = some (est, it, rr) → it ≤ i + n := by
  intro n
  induction n with
  | zero =>
    intro cur i last est it rr h
    cases last with
    | none => simp [newtonGo] at h
    | some m =>
      simp only [newtonGo, Option.map_some', Option.some.injEq,
        Prod.mk.injEq] at h
      obtain ⟨-, h2, -⟩ := h
      omega
  | succ n ih =>
    intro cur i last est it rr h
    rw [newtonGo_step] at h
    by_cases h1 : eval_func_derivative f cur derivativeStep = 0
    · rw [if_pos h1] at h
      simp only [Option.some.injEq, Prod.mk.injEq] at h
      obtain ⟨-, h2, -⟩ := h
      omega
    · rw [if_neg h1] at h
      by_cases h2 : |cur - eval_func f (some cur) /
          eval_func_derivative f cur derivativeStep - cur| < tol
      · rw [if_pos h2] at h
        simp only [Option.some.injEq, Prod.mk.injEq] at h
        obtain ⟨-, h3, -⟩ := h
        omega
      · rw [if_neg h2] at h
        have := ih _ (i + 1) _ est it rr h
        omega

lemma bisectionGo_isSome_some (e : Expr) (r : StopReason) :
    ∀ (n : ℕ) (lo hi : ℚ) (i : ℕ) (m : ℚ),
      (bisectionGo e r n lo hi i (some m)).isSome := by
  intro n
  induction n with
  | zero => intro lo hi i m; simp [bisectionGo]
  | succ n ih =>
    intro lo hi i m
    rw [bisectionGo_step]
    by_cases h1 : Expr.eval 1 e = 0
    · rw [if_pos h1]; rfl
    · rw [if_neg h1, if_neg h1]
      by_cases h2 : Expr.eval 1 e * Expr.eval 1 e < 0
      · rw [if_pos h2]; exact ih _ _ _ _
      · rw [if_neg h2]; exact ih _ _ _ _

lemma bisectionGo_isSome_pos (e : Expr) (r : StopReason) (n : ℕ) (lo hi : ℚ)
    (i : ℕ) (last : Option ℚ) (hn : 1 ≤ n) :
    (bisectionGo e r n lo hi i last).isSome := by
  obtain ⟨k, rfl⟩ : ∃ k, n = k + 1 := ⟨n - 1, by omega⟩
  rw [bisectionGo_step]
  by_cases h1 : Expr.eval 1 e = 0
  · rw [if_pos h1]; rfl
  · rw [if_neg h1, if_neg h1]
    by_cases h2 : Expr.eval 1 e * Expr.eval 1 e < 0
    · rw [if_pos h2]; exact bisectionGo_isSome_some e r _ _ _ _ _
    · rw [if_neg h2]; exact bisectionGo_isSome_some e r _ _ _ _ _

lemma fixedPointGo_isSome_some (f g : Expr) (tol : ℚ) :
    ∀ (n : ℕ) (cur : ℚ) (i : ℕ) (m : ℚ),
      (fixedPointGo f g tol n cur i (some m)).isSome := by
  intro n
  induction n with
  | zero => intro cur i m; simp [fixedPointGo]
  | succ n ih =>
    intro cur i m
    rw [fixedPointGo_step]
    by_cases h1 : |Expr.eval 1 g - cur| < tol
    · rw [if_pos h1]; rfl
    · rw [if_neg h1]
      by_cases h2 : |Expr.eval 1 f| < tol
      · rw [if_pos h2]; rfl
      · rw [if_neg h2]; exact ih _ _ _

lemma fixedPointGo_isSome_pos (f g : Expr) (tol : ℚ) (n : ℕ) (cur : ℚ)
    (i : ℕ) (last : Option ℚ) (hn : 1 ≤ n) :
    (fixedPointGo f g tol n cur i last).isSome := by
  obtain ⟨k, rfl⟩ : ∃ k, n = k + 1 := ⟨n - 1, by omega⟩
  rw [fixedPointGo_step]
  by_cases h1 : |Expr.eval 1 g - cur| < tol
  · rw [if_pos h1]; rfl
  · rw [if_neg h1]
    by_cases h2 : |Expr.eval 1 f| < tol
    · rw [if_pos h2]; rfl
    · rw [if_neg h2]; exact fixedPointGo_isSome_some f g tol _ _ _ _

lemma newtonGo_isSome_some (f : Expr) (tol : ℚ) :
    ∀ (n : ℕ) (cur : ℚ) (i : ℕ) (m : ℚ),
      (newtonGo f tol n cur i (some m)).isSome := by
  intro n
  induction n with
  | zero => intro cur i m; simp [newtonGo]
  | succ n ih =>
    intro cur i m
    rw [newtonGo_step]
    by_cases h1 : eval_func_derivative f cur derivativeStep = 0
    · rw [if_pos h1]; rfl
    · rw [if_neg h1]
      by_cases h2 : |cur - eval_func f (some cur) /
          eval_func_derivative f cur derivativeStep - cur| < tol
      · rw [if_pos h2]; rfl
      · rw [if_neg h2]; exact ih _ _ _

lemma newtonGo_isSome_pos (f : Expr) (tol : ℚ) (n : ℕ) (cur : ℚ) (i : ℕ)
    (last : Option ℚ) (hn : 1 ≤ n) :
    (newtonGo f tol n cur i last).isSome := by
  obtain ⟨k, rfl⟩ : ∃ k, n = k + 1 := ⟨n - 1, by omega⟩
  rw [newtonGo_step]
  by_cases h1 : eval_func_derivative f cur derivativeStep = 0
  · rw [if_pos h1]; rfl
  · rw [if_neg h1]
    by_cases h2 : |cur - eval_func f (some cur) /
        eval_func_derivative f cur derivativeStep - cur| < tol
    · rw [if_pos h2]; rfl
    · rw [if_neg h2]; exact newtonGo_isSome_some f tol _ _ _ _

/-- With at least one pass of fuel left, the fixed-point loop never reads
the carried `lastNext`, so that argument is irrelevant. -/
lemma fixedPointGo_last_irrel (f g : Expr) (tol : ℚ) (n : ℕ) (cur : ℚ)
    (i : ℕ) (l1 l2 : Option ℚ) (hn : 1 ≤ n) :
    fixedPointGo f g tol n cur i l1 = fixedPointGo f g tol n cur i l2 := by
  obtain ⟨k, rfl⟩ : ∃ k, n = k + 1 := ⟨n - 1, by omega⟩
  rw [fixedPointGo_step, fixedPointGo_step]

lemma gIter_succ (g : Expr) (x0 : ℚ) (k : ℕ) :
    gIter g x0 (k + 1) = Expr.eval 1 g := rfl

/-- Skipping `d` loop passes of `fixed_point_method` on which neither
stopping test fires: the loop state advances along the iterates of the
map. -/
lemma fixedPointGo_skip (f g : Expr) (tol x0 : ℚ) :
    ∀ (d j n : ℕ) (last : Option ℚ),
      (∀ k, j ≤ k → k < j + d → checksFailAt f g tol x0 k) → 1 ≤ n →
      fixedPointGo f g tol (d + n) (gIter g x0 j) j last =
        fixedPointGo f g tol n (gIter g x0 (j + d)) (j + d) last := by
  intro d
  induction d with
  | zero => intro j n last _ _; simp
  | succ d ih =>
    intro j n last hfail hn
    obtain ⟨h1, h2⟩ := hfail j le_rfl (by omega)
    have h1' : ¬ |Expr.eval 1 g - gIter g x0 j| < tol := h1
    have h2' : ¬ |Expr.eval 1 f| < tol := h2
    rw [show d + 1 + n = (d + n) + 1 from by omega, fixedPointGo_step,
      if_neg h1', if_neg h2']
    have step : fixedPointGo f g tol (d + n) (Expr.eval 1 g) (j + 1)
        (some (Expr.eval 1 g)) =
        fixedPointGo f g tol n (gIter g x0 ((j + 1) + d)) ((j + 1) + d)
          (some (Expr.eval 1 g)) :=
      ih (j + 1) n (some (Expr.eval 1 g))
        (fun k hk1 hk2 => hfail k (by omega) (by omega)) hn
    rw [step, show (j + 1) + d = j + (d + 1) from by omega]
    exact fixedPointGo_last_irrel f g tol n _ _ _ _ hn

/-- Folding the trapezoid accumulation over any index list adds the mapped
sum to the running value and the list length to the call count. -/
lemma trapFoldl (f : ℚ → ℚ) (a h : ℚ) :
    ∀ (l : List ℕ) (s : ℚ) (c : ℕ),
      l.foldl (fun (st : ℚ × ℕ) (i : ℕ) => (st.1 + f (a + (i : ℚ) * h), st.2 + 1)) (s, c) =
        (s + (l.map (fun (i : ℕ) => f (a + (i : ℚ) * h))).sum, c + l.length) := by
  intro l
  induction l with
  | nil => intro s c; simp
  | cons x xs ih =>
    intro s c
    simp only [List.foldl_cons, ih, List.map_cons, List.sum_cons,
      List.length_cons, Prod.mk.injEq]
    constructor
    · ring
    · omega

/-- The interior indices of the trapezoid loop, summed as the spec writes
them. -/
lemma trapSum (f : ℚ → ℚ) (a h : ℚ) (n : ℕ) (hn : 1 ≤ n) :
    (((List.range n).drop 1).map (fun (i : ℕ) => f (a + (i : ℚ) * h))).sum =
      ∑ i ∈ Finset.Icc 1 (n - 1), f (a + (i : ℚ) * h) := by
  induction n, hn using Nat.le_induction with
  | base => simp
  | succ n hn ih =>
    rw [List.range_succ, List.drop_append_of_le_length (by simp; omega),
      List.map_append, List.sum_append, ih]
    obtain ⟨m, rfl⟩ : ∃ m, n = m + 1 := ⟨n - 1, by omega⟩
    rw [show m + 1 + 1 - 1 = (m + 1 - 1) + 1 from by omega,
      Finset.sum_Icc_succ_top (by omega)]
    simp

lemma xSqMinusFour_eval : Expr.eval 1 xSqMinusFour = -3 := by
  norm_num [xSqMinusFour, Expr.eval]

lemma bound300 : |(3 : ℚ) - 0| / (1 / 100) = 300 := by
  rw [abs_of_nonneg (by norm_num)]
  norm_num

/-- The effective-bound normalization inside `bisection_method`. -/
lemma bisection_eff_eq_min (B maxIter : ℤ) :
    (if B < maxIter then B else maxIter) = min maxIter B := by
  by_cases h : B < maxIter
  · rw [if_pos h, min_eq_right h.le]
  · rw [if_neg h, min_eq_left (by omega)]

/-- Closed form of a full bisection run when the (constant) evaluated value
is nonzero: the loop runs for the whole effective bound
`min(max_iterations, ceil(log2(|upper - lower| / tolerance)))`, returns the
last midpoint, and reports the stop reason chosen before the loop. -/
lemma bisection_method_const_sign (e : Expr) (lo hi tol : ℚ) (maxIter : ℤ)
    (hc : Expr.eval 1 e ≠ 0) (h1 : 1 ≤ maxIter)
    (h2 : 1 ≤ ceilLog2 (|hi - lo| / tol)) :
    bisection_method e lo hi tol maxIter =
      some (hi - (hi - lo) / 2 ^ (min maxIter (ceilLog2 (|hi - lo| / tol))).toNat,
        (min maxIter (ceilLog2 (|hi - lo| / tol))).toNat,
        if ceilLog2 (|hi - lo| / tol) < maxIter then StopReason.toleranceReached
        else StopReason.maxIterationsReached) := by
  simp only [bisection_method, bisection_eff_eq_min]
  have hpos : 1 ≤ min maxIter (ceilLog2 (|hi - lo| / tol)) := le_min h1 h2
  obtain ⟨k, hk⟩ : ∃ k, (min maxIter (ceilLog2 (|hi - lo| / tol))).toNat = k + 1 :=
    ⟨(min maxIter (ceilLog2 (|hi - lo| / tol))).toNat - 1, by omega⟩
  rw [hk, bisectionGo_const_sign e _ hc k lo hi 0 none, zero_add]

/-- With one pass of fuel, the fixed-point loop returns the computed `next`
with the pre-loop check outcomes, or falls through to the exhaustion
return. -/
lemma fixedPointGo_one (f g : Expr) (tol cur : ℚ) (i : ℕ) (last : Option ℚ) :
    fixedPointGo f g tol 1 cur i last =
      (if |Expr.eval 1 g - cur| < tol then
        some (Expr.eval 1 g, i + 1, .convergedFixedPoint)
      else if |Expr.eval 1 f| < tol then
        some (Expr.eval 1 g, i + 1, .approximateRootFound)
      else some (Expr.eval 1 g, i + 1, .maxIterationsReached)) := rfl

end helperLemmas

/-- Claim C1: for every function expression and all evaluation points x and
y (both not None), the value component of eval_func is the same at x and at
y, because the implementation substitutes the constant literal 1 for the
variable before evaluating; consequently the central-difference numerator of
eval_func_derivative is exactly 0 for every h > 0, and the derivative value
itself is 0. -/
theorem c1_eval_func_point_independent (e : Expr) (x y h : ℚ) (hpos : 0 < h) :
    eval_func e (some x) = eval_func e (some y) ∧
    eval_func e (some (x + h)) - eval_func e (some (x - h)) = 0 ∧
    eval_func_derivative e x h = 0 := by
  refine ⟨rfl, by simp [eval_func], by simp [eval_func_derivative, eval_func]⟩

/-- Witness for C1 at the expression x**2 - 4, x = 3, y = 5, h = 1/1000. -/
theorem c1_witness :
    (0 : ℚ) < 1 / 1000 ∧
    (eval_func xSqMinusFour (some 3) = eval_func xSqMinusFour (some 5) ∧
      eval_func xSqMinusFour (some (3 + 1 / 1000)) -
        eval_func xSqMinusFour (some (3 - 1 / 1000)) = 0 ∧
      eval_func_derivative xSqMinusFour 3 (1 / 1000) = 0) :=
  ⟨by norm_num, c1_eval_func_point_independent xSqMinusFour 3 5 (1 / 1000) (by norm_num)⟩

/-- Claim C2 (code bug): Newton-Raphson on x**2 - 4 with initial_guess 3,
tolerance 1e-6 and max_iterations 6 does not converge to 2.  Because
eval_func substitutes the literal 1 for the variable, the central-difference
derivative is identically zero, so the method stops on the first iteration
with the derivative-zero failure, returning the initial guess. -/
theorem c2_newton_stops_derivative_zero :
    newton_raphson_method xSqMinusFour (1 / 1000000) 3 6 =
      some (3, 1, .derivativeZero) := by
  norm_num [newton_raphson_method, newtonGo, eval_func_derivative, eval_func,
    Expr.eval, derivativeStep, xSqMinusFour]

/-- Claim C3 (code bug): bisection on x**2 - 4 over [0, 3] with tolerance
0.01 performs exactly the computed bound of 9 iterations, but does not
return an estimate near 2: every evaluation yields the constant -3, so every
pass moves the lower bound up and the run converges to the upper bound 3,
returning 1533/512 = 2.994140625 (off from 2 by more than 1/2). -/
theorem c3_bisection_code_result :
    bisection_method xSqMinusFour 0 3 (1 / 100) 20 =
      some (1533 / 512, 9, .toleranceReached) ∧
    (1 : ℚ) / 2 < |1533 / 512 - 2| := by
  have hb : ceilLog2 (|(3 : ℚ) - 0| / (1 / 100)) = 9 := by
    rw [bound300]; exact ceilLog2_300
  constructor
  · rw [bisection_method_const_sign xSqMinusFour 0 3 (1 / 100) 20
      (by rw [xSqMinusFour_eval]; norm_num) (by norm_num) (by rw [hb]; norm_num), hb]
    rw [show (((20 : ℤ) ⊓ 9)).toNat = 9 from rfl]
    norm_num
  · rw [show |(1533 : ℚ) / 512 - 2| = 509 / 512 by
      rw [abs_of_nonneg (by norm_num)]; norm_num]
    norm_num

/-- Claim C4 counterexample: on f = x**2 - 4, [0, 3], tolerance 0.01 with
max_iterations = 9, the 9th midpoint 1533/512 is within tolerance of the 8th
midpoint 765/256 (the run with max_iterations = 8 exhibits the 8th midpoint
as its returned estimate), yet the 9-iteration run neither terminates
mid-loop nor reports tolerance-convergence: it exhausts all 9 passes and
returns the maximum-iterations stop reason.  So the method does not
terminate with the tolerance-convergence stop reason whenever successive
midpoints come within tolerance. -/
theorem c4_counterexample :
    bisection_method xSqMinusFour 0 3 (1 / 100) 9 =
      some (1533 / 512, 9, .maxIterationsReached) ∧
    bisection_method xSqMinusFour 0 3 (1 / 100) 8 =
      some (765 / 256, 8, .maxIterationsReached) ∧
    |(1533 : ℚ) / 512 - 765 / 256| < 1 / 100 := by
  have hb : ceilLog2 (|(3 : ℚ) - 0| / (1 / 100)) = 9 := by
    rw [bound300]; exact ceilLog2_300
  refine ⟨?_, ?_, ?_⟩
  · rw [bisection_method_const_sign xSqMinusFour 0 3 (1 / 100) 9
      (by rw [xSqMinusFour_eval]; norm_num) (by norm_num) (by rw [hb]; norm_num), hb]
    rw [show (((9 : ℤ) ⊓ 9)).toNat = 9 from rfl]
    norm_num
  · rw [bisection_method_const_sign xSqMinusFour 0 3 (1 / 100) 8
      (by rw [xSqMinusFour_eval]; norm_num) (by norm_num) (by rw [hb]; norm_num), hb]
    rw [show (((8 : ℤ) ⊓ 9)).toNat = 8 from rfl]
    norm_num
  · rw [show |(1533 : ℚ) / 512 - 765 / 256| = 3 / 512 by
      rw [abs_of_nonneg (by norm_num)]; norm_num]
    norm_num

/-- Claim C4 amended: bisection_method computes no midpoint-to-midpoint
error during the loop; the stop reason is fixed before the loop (the
tolerance reason exactly when ceil(log2(|upper - lower| / tolerance)) is
smaller than max_iterations, the maximum-iterations reason otherwise), and
whenever the evaluated value is nonzero (so no exact-root return fires) the
loop runs the full effective bound
min(max_iterations, ceil(log2(|upper - lower| / tolerance))) and returns the
last midpoint with that pre-recorded reason. -/
theorem c4_bisection_full_bound (e : Expr) (lo hi tol : ℚ) (maxIter : ℤ)
    (hc : Expr.eval 1 e ≠ 0) (h1 : 1 ≤ maxIter)
    (h2 : 1 ≤ Int.clog 2 (|hi - lo| / tol)) :
    bisection_method e lo hi tol maxIter =
      some (hi - (hi - lo) / 2 ^ (min maxIter (Int.clog 2 (|hi - lo| / tol))).toNat,
        (min maxIter (Int.clog 2 (|hi - lo| / tol))).toNat,
        if Int.clog 2 (|hi - lo| / tol) < maxIter then StopReason.toleranceReached
        else StopReason.maxIterationsReached) := by
  have h2' : 1 ≤ ceilLog2 (|hi - lo| / tol) := by
    rw [ceilLog2_eq_int_clog]; exact h2
  have hrun := bisection_method_const_sign e lo hi tol maxIter hc h1 h2'
  rwa [ceilLog2_eq_int_clog] at hrun

/-- Witness for the amended C4 at f = x**2 - 4, [0, 3], tolerance 0.01,
max_iterations = 9. -/
theorem c4_witness :
    Expr.eval 1 xSqMinusFour ≠ 0 ∧ (1 : ℤ) ≤ 9 ∧
    1 ≤ Int.clog 2 (|(3 : ℚ) - 0| / (1 / 100)) ∧
    bisection_method xSqMinusFour 0 3 (1 / 100) 9 =
      some (3 - (3 - 0) / 2 ^ (min 9 (Int.clog 2 (|(3 : ℚ) - 0| / (1 / 100)))).toNat,
        (min 9 (Int.clog 2 (|(3 : ℚ) - 0| / (1 / 100)))).toNat,
        if Int.clog 2 (|(3 : ℚ) - 0| / (1 / 100)) < 9 then StopReason.toleranceReached
        else StopReason.maxIterationsReached) := by
  have hclog : Int.clog 2 (|(3 : ℚ) - 0| / (1 / 100)) = 9 := by
    rw [← ceilLog2_eq_int_clog, bound300]; exact ceilLog2_300
  exact ⟨by rw [xSqMinusFour_eval]; norm_num, by norm_num,
    by rw [hclog]; norm_num,
    c4_bisection_full_bound xSqMinusFour 0 3 (1 / 100) 9
      (by rw [xSqMinusFour_eval]; norm_num) (by norm_num) (by rw [hclog]; norm_num)⟩

/-- Claim C5 counterexample: the error metric of the code does not return
+infinity at current = 0; relative_error(0, 0) divides by zero and raises
(returns no value). -/
theorem c5_counterexample : relative_error 0 0 = none := by
  simp [relative_error]

/-- Claim C5 amended: relative_error(approx, true) returns
|approx - true| / |true| whenever the second argument is nonzero, and raises
ZeroDivisionError (returns no value) when it is zero; in particular
relative_error(0, 0) raises instead of returning +infinity as a value. -/
theorem c5_relative_error_amended (a t : ℚ) (ht : t ≠ 0) :
    relative_error a t = some (|a - t| / |t|) ∧ relative_error 0 0 = none := by
  refine ⟨?_, by simp [relative_error]⟩
  rw [relative_error, if_neg ht, abs_div]

/-- Witness for the amended C5 at approx = 1, true = 2. -/
theorem c5_witness :
    (2 : ℚ) ≠ 0 ∧
    (relative_error 1 2 = some (|(1 : ℚ) - 2| / |(2 : ℚ)|) ∧
      relative_error 0 0 = none) :=
  ⟨by norm_num, c5_relative_error_amended 1 2 (by norm_num)⟩

/-- Claim C6 counterexample: with tolerance 2 at least the bracket width
|1 - 0|, the pre-loop bound ceil(log2(1/2)) = -1 shrinks max_iterations
below 1, the loop body never runs, and the return statement reads unassigned
locals, so the Python call raises instead of returning a result triple. -/
theorem c6_counterexample : bisection_method xSqMinusFour 0 1 2 5 = none := by
  have hb : ceilLog2 (|(1 : ℚ) - 0| / 2) = -1 := by
    rw [show |(1 : ℚ) - 0| / 2 = (2 : ℚ)⁻¹ by
      rw [abs_of_nonneg (by norm_num)]; norm_num]
    rw [ceilLog2, if_neg (by norm_num)]
    norm_num [log2Aux]
  simp only [bisection_method, hb]
  norm_num
  rw [show ((-1 : ℤ)).toNat = 0 from rfl]
  simp [bisectionGo]

/-- Claim C6 amended: for every tolerance > 0 and max_iterations at least 1,
fixed_point_method and newton_raphson_method always return a complete result
triple; bisection_method does so provided additionally the pre-loop bound
ceil(log2(|upper - lower| / tolerance)) is at least 1 (equivalently the
tolerance is smaller than the bracket width); when that bound is below 1 the
call raises instead (see the counterexample). -/
theorem c6_methods_return (tol : ℚ) (maxIter : ℤ) (htol : 0 < tol)
    (hmax : 1 ≤ maxIter) :
    (∀ (f g : Expr) (x0 : ℚ), (fixed_point_method f g tol x0 maxIter).isSome) ∧
    (∀ (f : Expr) (x0 : ℚ), (newton_raphson_method f tol x0 maxIter).isSome) ∧
    (∀ (e : Expr) (lo hi : ℚ), 1 ≤ Int.clog 2 (|hi - lo| / tol) →
      (bisection_method e lo hi tol maxIter).isSome) := by
  refine ⟨?_, ?_, ?_⟩
  · intro f g x0
    exact fixedPointGo_isSome_pos f g tol maxIter.toNat x0 0 none (by omega)
  · intro f x0
    exact newtonGo_isSome_pos f tol maxIter.toNat x0 0 none (by omega)
  · intro e lo hi hB
    have hB' : 1 ≤ ceilLog2 (|hi - lo| / tol) := by
      rw [ceilLog2_eq_int_clog]; exact hB
    have hm : 1 ≤ min maxIter (ceilLog2 (|hi - lo| / tol)) := le_min hmax hB'
    simp only [bisection_method, bisection_eff_eq_min]
    exact bisectionGo_isSome_pos e _ _ lo hi 0 none (by omega)

/-- Witness for the amended C6 at tolerance 1/100 and max_iterations 5. -/
theorem c6_witness :
    (0 : ℚ) < 1 / 100 ∧ (1 : ℤ) ≤ 5 ∧
    (fixed_point_method xSqMinusFour xSqMinusFour (1 / 100) 3 5).isSome ∧
    (newton_raphson_method xSqMinusFour (1 / 100) 3 5).isSome ∧
    (bisection_method xSqMinusFour 0 3 (1 / 100) 5).isSome := by
  have h := c6_methods_return (1 / 100) 5 (by norm_num) (by norm_num)
  refine ⟨by norm_num, by norm_num, h.1 xSqMinusFour xSqMinusFour 3,
    h.2.1 xSqMinusFour 3, h.2.2 xSqMinusFour 0 3 ?_⟩
  rw [← ceilLog2_eq_int_clog, bound300, ceilLog2_300]
  norm_num

/-- Claim C7: whenever a method returns (tolerance > 0, max_iterations at
least 1), the reported iteration count is at most max_iterations for
fixed_point_method and newton_raphson_method, and at most
min(max_iterations, ceil(log2(|upper - lower| / tolerance))) for
bisection_method. -/
theorem c7_iteration_bounds (tol : ℚ) (maxIter : ℤ) (htol : 0 < tol)
    (hmax : 1 ≤ maxIter) :
    (∀ (e : Expr) (lo hi est : ℚ) (it : ℕ) (r : StopReason),
      bisection_method e lo hi tol maxIter = some (est, it, r) →
      (it : ℤ) ≤ min maxIter (Int.clog 2 (|hi - lo| / tol))) ∧
    (∀ (f g : Expr) (x0 est : ℚ) (it : ℕ) (r : StopReason),
      fixed_point_method f g tol x0 maxIter = some (est, it, r) →
      (it : ℤ) ≤ maxIter) ∧
    (∀ (f : Expr) (x0 est : ℚ) (it : ℕ) (r : StopReason),
      newton_raphson_method f tol x0 maxIter = some (est, it, r) →
      (it : ℤ) ≤ maxIter) := by
  refine ⟨?_, ?_, ?_⟩
  · intro e lo hi est it r h
    simp only [bisection_method, bisection_eff_eq_min] at h
    rw [← ceilLog2_eq_int_clog]
    set M := min maxIter (ceilLog2 (|hi - lo| / tol)) with hM
    have hle := bisectionGo_iters_le e _ M.toNat lo hi 0 none est it r h
    rcases Nat.eq_zero_or_pos M.toNat with h0 | hpos
    · rw [h0] at h
      simp [bisectionGo] at h
    · omega
  · intro f g x0 est it r h
    simp only [fixed_point_method] at h
    have hle := fixedPointGo_iters_le f g tol maxIter.toNat x0 0 none est it r h
    omega
  · intro f x0 est it r h
    simp only [newton_raphson_method] at h
    have hle := newtonGo_iters_le f tol maxIter.toNat x0 0 none est it r h
    omega

/-- Witness for C7: a returning fixed-point run with one iteration under the
bound 5. -/
theorem c7_witness :
    (0 : ℚ) < 1 / 100 ∧ (1 : ℤ) ≤ 5 ∧ ((1 : ℕ) : ℤ) ≤ 5 := by
  refine ⟨by norm_num, by norm_num, ?_⟩
  have hrun : fixed_point_method xSqMinusFour xSqMinusFour (1 / 100) (-3) 5 =
      some (-3, 1, .convergedFixedPoint) := by
    norm_num [fixed_point_method, fixedPointGo, eval_func, Expr.eval, xSqMinusFour]
  exact (c7_iteration_bounds (1 / 100) 5 (by norm_num) (by norm_num)).2.1
    xSqMinusFour xSqMinusFour (-3) (-3) 1 .convergedFixedPoint hrun

/-- Claim C8: for every function, bounds and odd n, Simpson 1/3 fails with
the invalid-argument condition (n must be even) before evaluating the
function even once (the result does not depend on the function at all), and
for even n it never produces that condition. -/
theorem c8_simpsons_parity (a b : ℚ) (n : ℤ) :
    (n % 2 ≠ 0 → ∀ f g : ℚ → ℚ,
      simpsons_one_third_rule f a b n = .error .nMustBeEven ∧
      simpsons_one_third_rule f a b n = simpsons_one_third_rule g a b n) ∧
    (n % 2 = 0 → ∀ f : ℚ → ℚ,
      simpsons_one_third_rule f a b n ≠ .error .nMustBeEven) := by
  constructor
  · intro hodd f g
    constructor
    · simp [simpsons_one_third_rule, hodd]
    · simp [simpsons_one_third_rule, hodd]
  · intro heven f
    simp [simpsons_one_third_rule, heven]

/-- Witness for C8 at n = 3 (odd). -/
theorem c8_witness :
    simpsons_one_third_rule (fun x => x) 0 1 3 =
      Except.error QuadratureError.nMustBeEven :=
  ((c8_simpsons_parity 0 1 3).1 (by decide) (fun x => x) (fun x => x)).1

/-- Claim C9: for n at least 1, the trapezoidal rule returns
h * ((f(a) + f(b))/2 + sum over i = 1 to n-1 of f(a + i*h)) with
h = (b - a)/n, and evaluates f exactly n + 1 times. -/
theorem c9_trapezoidal_rule_spec (f : ℚ → ℚ) (a b : ℚ) (n : ℕ) (hn : 1 ≤ n) :
    trapezoidal_rule f a b n =
      ((b - a) / (n : ℚ)) * ((f a + f b) / 2 +
        ∑ i ∈ Finset.Icc 1 (n - 1), f (a + (i : ℚ) * ((b - a) / (n : ℚ)))) ∧
    (trapezoidal_rule_run f a b n).2 = n + 1 := by
  have hrun := trapFoldl f a ((b - a) / (n : ℚ)) ((List.range n).drop 1)
    ((f a + f b) / 2) 2
  constructor
  · rw [trapezoidal_rule]
    simp only [trapezoidal_rule_run]
    rw [hrun]
    simp only
    rw [trapSum f a ((b - a) / (n : ℚ)) n hn]
    ring
  · simp only [trapezoidal_rule_run]
    rw [hrun]
    simp only [List.length_drop, List.length_range]
    omega

/-- Witness for C9 at f = x**2, [0, 1], n = 10 (the spec scenario). -/
theorem c9_witness :
    (1 : ℕ) ≤ 10 ∧
    (trapezoidal_rule (fun x : ℚ => x ^ 2) 0 1 10 =
      ((1 - 0) / (10 : ℚ)) * (((0 : ℚ) ^ 2 + (1 : ℚ) ^ 2) / 2 +
        ∑ i ∈ Finset.Icc (1 : ℕ) (10 - 1), ((0 : ℚ) + (i : ℚ) * ((1 - 0) / (10 : ℚ))) ^ 2) ∧
      (trapezoidal_rule_run (fun x : ℚ => x ^ 2) 0 1 10).2 = 10 + 1) :=
  ⟨by norm_num, c9_trapezoidal_rule_spec (fun x : ℚ => x ^ 2) 0 1 10 (by norm_num)⟩

/-- Claim C10: each pass of fixed_point_method computes next = g(current);
if |next - current| < tolerance the method stops with the
fixed-point-convergence reason and estimate next (this check has priority
over the approximate-root check); otherwise, if |f(next)| < tolerance it
stops with the approximate-root reason and estimate next; and when
max_iterations passes elapse with neither check firing, it returns the last
computed next with the maximum-iterations reason.  Stated over the iterates
gIter of the map. -/
theorem c10_fixed_point_semantics (f g : Expr) (tol x0 : ℚ) (N m : ℕ)
    (hN : 1 ≤ N) :
    ((∀ k, k < N → checksFailAt f g tol x0 k) →
      fixed_point_method f g tol x0 (N : ℤ) =
        some (gIter g x0 N, N, .maxIterationsReached)) ∧
    (m < N → (∀ k, k < m → checksFailAt f g tol x0 k) →
      (|gIter g x0 (m + 1) - gIter g x0 m| < tol →
        fixed_point_method f g tol x0 (N : ℤ) =
          some (gIter g x0 (m + 1), m + 1, .convergedFixedPoint)) ∧
      (¬ |gIter g x0 (m + 1) - gIter g x0 m| < tol →
        |eval_func f (some (gIter g x0 (m + 1)))| < tol →
        fixed_point_method f g tol x0 (N : ℤ) =
          some (gIter g x0 (m + 1), m + 1, .approximateRootFound))) := by
  constructor
  · intro hfail
    obtain ⟨M, rfl⟩ : ∃ M, N = M + 1 := ⟨N - 1, by omega⟩
    have hskip := fixedPointGo_skip f g tol x0 M 0 1 none
      (fun k hk1 hk2 => hfail k (by omega)) (by norm_num)
    show fixedPointGo f g tol (((M + 1 : ℕ) : ℤ)).toNat (gIter g x0 0) 0 none = _
    rw [show (((M + 1 : ℕ) : ℤ)).toNat = M + 1 from by omega, hskip]
    simp only [Nat.zero_add]
    obtain ⟨h1, h2⟩ := hfail M (by omega)
    have h1' : ¬ |Expr.eval 1 g - gIter g x0 M| < tol := h1
    have h2' : ¬ |Expr.eval 1 f| < tol := h2
    rw [fixedPointGo_one, if_neg h1', if_neg h2', gIter_succ g x0 M]
  · intro hmN hfail
    have hK : ∃ K, ((N : ℤ)).toNat = m + (K + 1) := ⟨N - m - 1, by omega⟩
    obtain ⟨K, hK⟩ := hK
    have hskip := fixedPointGo_skip f g tol x0 m 0 (K + 1) none
      (fun k hk1 hk2 => hfail k (by omega)) (by omega)
    constructor
    · intro hfp
      have hfp' : |Expr.eval 1 g - gIter g x0 m| < tol := hfp
      show fixedPointGo f g tol ((N : ℤ)).toNat (gIter g x0 0) 0 none = _
      rw [hK, hskip]
      simp only [Nat.zero_add]
      rw [fixedPointGo_step, if_pos hfp', gIter_succ g x0 m]
    · intro hfp hroot
      have hfp' : ¬ |Expr.eval 1 g - gIter g x0 m| < tol := hfp
      have hroot' : |Expr.eval 1 f| < tol := hroot
      show fixedPointGo f g tol ((N : ℤ)).toNat (gIter g x0 0) 0 none = _
      rw [hK, hskip]
      simp only [Nat.zero_add]
      rw [fixedPointGo_step, if_neg hfp', if_pos hroot', gIter_succ g x0 m]

/-- Witness for C10 with f = x**2 - 4, g = x/2 + 1, tolerance 1/100,
initial guess 3, max_iterations 3: the first pass moves from 3 to 3/2 and
both checks fail; the second pass maps 3/2 to 3/2, the fixed-point check
fires, and the method stops with estimate 3/2 after 2 iterations. -/
theorem c10_witness :
    fixed_point_method xSqMinusFour gHalfPlusOne (1 / 100) 3 ((3 : ℕ) : ℤ) =
      some (3 / 2, 2, .convergedFixedPoint) := by
  have hfail : ∀ k, k < 1 → checksFailAt xSqMinusFour gHalfPlusOne (1 / 100) 3 k := by
    intro k hk
    interval_cases k
    constructor
    · norm_num [gIter, gHalfPlusOne, eval_func, Expr.eval]
      rw [show |(3 : ℚ) / 2| = 3 / 2 from abs_of_nonneg (by norm_num)]
      norm_num
    · norm_num [gIter, xSqMinusFour, gHalfPlusOne, eval_func, Expr.eval]
  have hfp : |gIter gHalfPlusOne 3 (1 + 1) - gIter gHalfPlusOne 3 1| < 1 / 100 := by
    norm_num [gIter, gHalfPlusOne, eval_func, Expr.eval]
  have h := ((c10_fixed_point_semantics xSqMinusFour gHalfPlusOne (1 / 100) 3 3 1
    (by norm_num)).2 (by norm_num) hfail).1 hfp
  rw [h]
  norm_num [gIter, gHalfPlusOne, eval_func, Expr.eval]
